import Mathlib

/-!
Shallow embedding of the Lispy interpreter (`src/lispy.js`, first file variant,
whose line numbers the claims cite) in Lean 4, together with theorems settling
the frozen claims C1..C10.

Modelling conventions:
* JavaScript numbers are modelled by `ℚ` plus an explicit `nan` value
  (and `inf`/`ninf` for the division-by-zero results).  The claims under
  study only exercise integral values, where `ℚ` agrees with IEEE doubles.
* JavaScript values are the inductive `Value`; environments (`Environment`
  instances with `members`/`parent`) are the inductive `EnvT`.  The heap is
  modelled functionally: the evaluator threads the current environment chain
  through every step (mutations of a chain reachable only through captured
  aliases are outside the modelled fragment; no claim depends on them).
* Host exceptions (`TypeError` raised by the JS runtime itself, e.g. member
  access on `undefined`) are `Err.hostTypeError`; interpreter errors keep
  their source names.  `Err.unmodelled` marks host functionality the
  embedding does not model (no theorem depends on those paths).
* General recursion of the source is embedded with an explicit fuel
  parameter; `Err.outOfFuel` never occurs for the budgets used below.
-/

inductive Err where
  | keyNotFound (key : String)
  | hostTypeError
  | invalidArgument (msg : String)
  | invalidOperation
  | parserError (msg : String)
  | unmodelled (tag : String)
  | outOfFuel
  deriving DecidableEq, Repr

mutual

inductive Value where
  | undef
  | nil
  | bool (b : Bool)
  | num (q : ℚ)
  | nan
  | inf
  | ninf
  | str (s : String)
  | symV (name : String)
  | listV (xs : List Value)
  | tupV (xs : List Value)
  | lamV (params : Value) (body : Value) (env : EnvT)
  | macV (params : Value) (body : Value) (env : EnvT)
  | spFn (tag : String)
  | hostFn (tag : String)
  | envV (e : EnvT)
  | dictV (entries : List (String × Value))
  | hostObj (tag : String)
  | errV (e : Err)

inductive EnvT where
  | mk (members : List (String × Value)) (parent : Option EnvT)

end

def EnvT.members : EnvT → List (String × Value)
  | .mk m _ => m

def EnvT.parent : EnvT → Option EnvT
  | .mk _ p => p

/-- Character constants, by code point, for the punctuation the tokeniser
and printers work with: the `()[]` and brace separators, quote, double
quote, backslash, semicolon, dot, minus. -/
def chLP : Char := Char.ofNat 40

def chRP : Char := Char.ofNat 41

def chLB : Char := Char.ofNat 91

def chRB : Char := Char.ofNat 93

def chLC : Char := Char.ofNat 123

def chRC : Char := Char.ofNat 125

def chQuote : Char := Char.ofNat 39

def chDQ : Char := Char.ofNat 34

def chBS : Char := Char.ofNat 92

def chSemi : Char := Char.ofNat 59

def chDot : Char := Char.ofNat 46

def chMinus : Char := Char.ofNat 45

/-- `isspace` from lispy.js: space, tab, carriage return, line feed. -/
def isspaceCh (c : Char) : Bool :=
  c.toNat == 32 || c.toNat == 9 || c.toNat == 13 || c.toNat == 10

/-- Membership in `tSeparators = "()[]{}"` (compared by code point). -/
def isSepCh (c : Char) : Bool :=
  c.toNat == 40 || c.toNat == 41 || c.toNat == 91 || c.toNat == 93 ||
    c.toNat == 123 || c.toNat == 125

/-- `isdigit` from lispy.js: code point between those of 0 and 9. -/
def isDigitCh (c : Char) : Bool :=
  48 ≤ c.toNat && c.toNat ≤ 57

def charVal (c : Char) : Nat := c.toNat - 48

def digitCh (d : Nat) : Char := Char.ofNat (48 + d)

/-- Decimal digits of a natural number, most significant first
(the integral case of JavaScript number-to-string). -/
def natReprAux : Nat → Nat → List Char
  | 0, _ => []
  | fuel + 1, n => if n = 0 then [] else natReprAux fuel (n / 10) ++ [digitCh (n % 10)]

def natRepr (n : Nat) : List Char :=
  if n = 0 then [digitCh 0] else natReprAux (n + 1) n

def intRepr (i : Int) : List Char :=
  if i < 0 then chMinus :: natRepr i.natAbs else natRepr i.natAbs

/-- The least positive exponent `k` with `d ∣ 10 ^ k`, when one exists:
the length of `1/d`'s finite decimal expansion.  For a reduced
denominator `d = 2^a * 5^b` the least such `k` is `max a b`, and
`a < 2^a ≤ d` (likewise `b`), so searching `k ≤ d` finds it. -/
def findPow10 (d : Nat) : Option Nat :=
  (List.range (d + 1)).find? (fun k => decide (0 < k ∧ 10 ^ k % d = 0))

/-- Left-pad a digit string with zeros to width `k` (the fixed-width
fraction block of a decimal expansion). -/
def padZeros (k : Nat) (cs : List Char) : List Char :=
  List.replicate (k - cs.length) (digitCh 0) ++ cs

/-- JavaScript `Number.prototype.toString` on the modelled numbers.
Integral values print as decimal integers, and values with a finite
decimal expansion print that exact expansion (sign, integer part, `.`,
fraction digits) — since the reduced `q` has no common factor with its
fraction block, the least exponent found by `findPow10` yields no
trailing zeros, exactly as in JS.  The fallback branch covers rationals
with no finite decimal expansion; those are not exact values of IEEE
doubles (which are dyadic), so they lie outside the embedding's image of
JS numbers and no theorem depends on that branch. -/
def numToString (q : ℚ) : List Char :=
  if q.den = 1 then intRepr q.num
  else
    match findPow10 q.den with
    | some k =>
      (if q.num < 0 then [chMinus] else []) ++
        natRepr (q.num.natAbs / q.den) ++
        chDot :: padZeros k (natRepr (q.num.natAbs % q.den * 10 ^ k / q.den))
    | none => intRepr q.num ++ Char.ofNat 47 :: natRepr q.den

/-- MSB-first value of a digit string. -/
def digitsVal (cs : List Char) : Nat :=
  cs.foldl (fun a c => 10 * a + charVal c) 0

def natOfDigits (cs : List Char) : Option Nat :=
  if cs.isEmpty then none
  else if cs.all isDigitCh then some (digitsVal cs) else none

/-- Decimal literal `digits [ . digits ]` as read by JavaScript `Number`. -/
def decDigits (cs : List Char) : Option ℚ :=
  let ip := cs.takeWhile (fun c => !(c.toNat == 46))
  let rest := cs.dropWhile (fun c => !(c.toNat == 46))
  match natOfDigits ip with
  | none => none
  | some n =>
    match rest with
    | [] => some (n : ℚ)
    | _ :: fp =>
      if fp.all isDigitCh then
        some ((n : ℚ) + (digitsVal fp : ℚ) / ((10 : ℚ) ^ fp.length))
      else none

/-- JavaScript `Number(string)` on the decimal fragment; `none` models `NaN`.
(Hexadecimal, exponent and surrounding-whitespace forms are outside the
modelled fragment and map to `none`.) -/
def jsNumberChars : List Char → Option ℚ
  | [] => some 0
  | c :: rest =>
    if c.toNat = 45 then (decDigits rest).map Neg.neg
    else decDigits (c :: rest)

/-- Space-join of printed members. -/
def joinSp : List (List Char) → List Char
  | [] => []
  | [x] => x
  | x :: rest => x ++ Char.ofNat 32 :: joinSp rest

mutual

/-- `to_string` from lispy.js (the characters): the extensive printer. -/
def toStr : Value → Bool → List Char
  | .undef, _ => "undefined".data
  | .nil, _ => "nil".data
  | .symV s, _ => chQuote :: s.data
  | .str s, wq => if wq then chDQ :: s.data ++ [chDQ] else s.data
  | .lamV _ _ _, _ => "#Lambda".data
  | .listV xs, wq => chLB :: joinSp (toStrList xs wq) ++ [chRB]
  | .tupV xs, _ => chLC :: joinSp (toStrList xs false) ++ [chRC]
  | .bool b, _ => if b then "true".data else "false".data
  | .num q, _ => numToString q
  | .nan, _ => "NaN".data
  | .inf, _ => "Infinity".data
  | .ninf, _ => "-Infinity".data
  | .macV _ _ _, _ => "[object Object]".data
  | .spFn _, _ => "#SpecialFunction".data
  | .hostFn tag, _ => ("#procedure:" ++ tag).data
  | .envV _, _ => "#Environment".data
  | .dictV _, _ => "[object Object]".data
  | .hostObj _, _ => "[object Object]".data
  | .errV _, _ => "#Error".data

def toStrList : List Value → Bool → List (List Char)
  | [], _ => []
  | v :: rest, wq => toStr v wq :: toStrList rest wq

end

mutual

/-- JavaScript `String(v)` (the characters).  For function values JS yields
the function's source text; the model uses an opaque marker, which no
theorem below inspects. -/
def jsStringL : Value → List Char
  | .undef => "undefined".data
  | .nil => "null".data
  | .bool b => if b then "true".data else "false".data
  | .num q => numToString q
  | .nan => "NaN".data
  | .inf => "Infinity".data
  | .ninf => "-Infinity".data
  | .str s => s.data
  | .symV s => chQuote :: s.data
  | .listV xs => jsItems xs
  | .tupV xs => chLC :: joinSp (toStrList xs false) ++ [chRC]
  | .lamV _ _ _ => "#Lambda".data
  | .macV _ _ _ => "[object Object]".data
  | .spFn _ => "#SpecialFunction".data
  | .hostFn tag => ("#procedure:" ++ tag).data
  | .envV _ => "#Environment".data
  | .dictV _ => "[object Object]".data
  | .hostObj _ => "[object Object]".data
  | .errV _ => "#Error".data

/-- `Array.prototype.toString`: comma-join, `null`/`undefined` print empty. -/
def jsItems : List Value → List Char
  | [] => []
  | [.undef] => []
  | [.nil] => []
  | [v] => jsStringL v
  | .undef :: rest => Char.ofNat 44 :: jsItems rest
  | .nil :: rest => Char.ofNat 44 :: jsItems rest
  | v :: rest => jsStringL v ++ Char.ofNat 44 :: jsItems rest

end

def jsString (v : Value) : String := String.mk (jsStringL v)

/-- `to_string(val, withquotes)` from lispy.js. -/
def to_string (v : Value) (withquotes : Bool) : String := String.mk (toStr v withquotes)

/-- `to_s(val)` from lispy.js: `null` prints `nil`, symbols print bare,
anything else via `String(val)`. -/
def to_s : Value → String
  | .nil => "nil"
  | .symV s => s
  | v => jsString v

/-- JavaScript `ToNumber` on the modelled fragment; `none` models `NaN`.
Objects convert through their string form (`ToPrimitive` then `ToNumber`).
Arithmetic on `inf`/`ninf` is outside the modelled fragment. -/
def toNum : Value → Option ℚ
  | .num q => some q
  | .nil => some 0
  | .bool b => some (if b then 1 else 0)
  | .undef => none
  | .nan => none
  | .inf => none
  | .ninf => none
  | .str s => jsNumberChars s.data
  | v => jsNumberChars (jsStringL v)

/-- Values that are JavaScript objects (so `+` falls back to string
concatenation on them). -/
def isObjLike : Value → Bool
  | .symV _ => true
  | .listV _ => true
  | .tupV _ => true
  | .dictV _ => true
  | .envV _ => true
  | .macV _ _ _ => true
  | .lamV _ _ _ => true
  | .spFn _ => true
  | .hostFn _ => true
  | .hostObj _ => true
  | .errV _ => true
  | _ => false

/-- `ops['+']` from lispy.js: JavaScript `a + n`. -/
def jsAdd (a b : Value) : Value :=
  match a, b with
  | .str x, y => .str (x ++ jsString y)
  | x, .str y => .str (jsString x ++ y)
  | x, y =>
    if isObjLike x || isObjLike y then .str (jsString x ++ jsString y)
    else
      match toNum x, toNum y with
      | some p, some q => .num (p + q)
      | _, _ => .nan

/-- `ops['-']` from lispy.js: JavaScript `a - n`. -/
def jsSub (a b : Value) : Value :=
  match toNum a, toNum b with
  | some p, some q => .num (p - q)
  | _, _ => .nan

/-- `ops['*']` from lispy.js: JavaScript `a * n`. -/
def jsMul (a b : Value) : Value :=
  match toNum a, toNum b with
  | some p, some q => .num (p * q)
  | _, _ => .nan

/-- `ops['/']` from lispy.js: JavaScript `a / n`. -/
def jsDiv (a b : Value) : Value :=
  match toNum a, toNum b with
  | some p, some q =>
    if q = 0 then (if 0 < p then .inf else if p < 0 then .ninf else .nan)
    else .num (p / q)
  | _, _ => .nan

/-- `Array.prototype.reduce` with no initial value, as used by the four
arithmetic primitives: on an empty array the JS runtime throws a
`TypeError`; on a singleton it returns the element without calling the
callback; otherwise it left-folds. -/
def reduceCall (op : Value → Value → Value) : List Value → Except Err Value
  | [] => .error .hostTypeError
  | x :: rest => .ok (rest.foldl op x)

/-- `StdLib['+']`. -/
def lispAdd : List Value → Except Err Value := reduceCall jsAdd

/-- `StdLib['-']`. -/
def lispSub : List Value → Except Err Value := reduceCall jsSub

/-- `StdLib['*']`. -/
def lispMul : List Value → Except Err Value := reduceCall jsMul

/-- `StdLib['/']`. -/
def lispDiv : List Value → Except Err Value := reduceCall jsDiv

example : lispAdd [] = .error .hostTypeError := rfl

example : lispSub [.num 5] = .ok (.num 5) := rfl

example : jsString (.num 7) = "7" := rfl

example : jsString (.num (-12)) = "-12" := rfl

/-! ## Environments

`Environment` from lispy.js.  `members` is a plain JS object (`{}`), so the
`key in members` test used by `present`, `get` and `set` also sees the
properties inherited from `Object.prototype`; `Object.keys` and own-property
updates see only the own entries.  `protoProps` lists those inherited
property names. -/

def protoProps : List String :=
  ["constructor", "hasOwnProperty", "isPrototypeOf", "propertyIsEnumerable",
   "toLocaleString", "toString", "valueOf", "__proto__",
   "__defineGetter__", "__defineSetter__", "__lookupGetter__", "__lookupSetter__"]

/-- The host value inherited from `Object.prototype` for one of the names in
`protoProps` (a host function, except for the `__proto__` accessor). -/
def protoValue (key : String) : Value :=
  if key = "__proto__" then .hostObj "Object.prototype"
  else .hostFn ("Object.prototype." ++ key)

/-- JavaScript `key in members`: own entry or inherited prototype property. -/
def frameHas (m : List (String × Value)) (key : String) : Bool :=
  (m.lookup key).isSome || protoProps.contains key

/-- JavaScript `members[key]`: the own entry if present, else the inherited
prototype property (callers only use this under `frameHas`). -/
def frameVal (m : List (String × Value)) (key : String) : Value :=
  (m.lookup key).getD (protoValue key)

/-- JavaScript `members[key] = value`: overwrite the own entry in place or
append a new one. -/
def defineM : List (String × Value) → String → Value → List (String × Value)
  | [], key, v => [(key, v)]
  | (k, w) :: rest, key, v =>
    if k = key then (k, v) :: rest else (k, w) :: defineM rest key v

/-- The key conversion shared by `define`/`set`/`present`/`get`:
a `Symbol` argument is replaced by its name; any other value is used as a
JS property key, i.e. coerced with `String(...)`. -/
def defKey : Value → String
  | .symV s => s
  | v => jsString v

/-- `Environment.prototype.define`: always writes the local node. -/
def envDefine : EnvT → String → Value → EnvT
  | .mk m p, key, v => .mk (defineM m key v) p

/-- `Environment.prototype.present`: walks the parent chain. -/
def envPresent : EnvT → String → Bool
  | .mk m p, key =>
    frameHas m key ||
      (match p with
       | some par => envPresent par key
       | none => false)

/-- `Environment.prototype.get(key, from)`.  `from` is filled in with the
environment the walk started at (`from || this`) when recursing.  At the
root, the source throws `new KeyNotFoundError(key, from)`; that
constructor runs `from.dump(key)`, so when `from` is still `undefined`
(a lookup that started at a parentless environment) the construction
itself faults with a host `TypeError` before the `KeyNotFoundError` can
propagate. -/
def envGetFrom : EnvT → String → Option EnvT → Except Err Value
  | .mk m p, key, fr =>
    if frameHas m key then .ok (frameVal m key)
    else
      match p with
      | some par => envGetFrom par key (some (fr.getD (.mk m p)))
      | none =>
        match fr with
        | some _ => .error (.keyNotFound key)
        | none => .error .hostTypeError

/-- `Environment.prototype.get` as called with a single argument
(`Env.get(X.symbol)`, `env:get`, member calls). -/
def envGet (e : EnvT) (key : String) : Except Err Value :=
  envGetFrom e key none

/-- `Environment.prototype.set`: write to the nearest node whose members
contain the key (in the `key in members` sense), else `KeyNotFoundError`
(whose constructor succeeds here: it receives `this`, an environment). -/
def envSet : EnvT → String → Value → Except Err EnvT
  | .mk m p, key, v =>
    if frameHas m key then .ok (.mk (defineM m key v) p)
    else
      match p with
      | some par => (envSet par key v).map (fun par2 => .mk m (some par2))
      | none => .error (.keyNotFound key)

/-- `Environment.prototype.keys`: ancestors first, then own
`Object.keys(members)` (own enumerable entries only). -/
def envKeys : EnvT → List String
  | .mk m p =>
    (match p with
     | some par => envKeys par
     | none => []) ++ m.map Prod.fst

/-- `Environment.prototype.toplevel`. -/
def envToplevel : EnvT → EnvT
  | .mk m none => .mk m none
  | .mk _ (some par) => envToplevel par

def emptyEnv : EnvT := .mk [] none

example : envGet emptyEnv "x" = .error .hostTypeError := rfl

example : envGet (.mk [] (some emptyEnv)) "x" = .error (.keyNotFound "x") := rfl

example : envGet emptyEnv "toString" = .ok (.hostFn "Object.prototype.toString") := rfl

/-! ## The evaluator

`NormalEval` from lispy.js, with the trampoline loop unrolled into a
fuel-indexed recursion: one unit of fuel is spent per loop iteration or
nested `Eval` call, and the budgets used in the theorems below are always
sufficient, so `Err.outOfFuel` never surfaces there. -/

/-- `Eval(X[1], Env) ? X[2] : Alt` uses JavaScript truthiness: `false`,
`null`, `undefined`, `0`, `NaN` and the empty string are falsy, every
other value (objects and arrays included) is truthy. -/
def truthy : Value → Bool
  | .undef => false
  | .nil => false
  | .bool b => b
  | .num q => decide (q ≠ 0)
  | .nan => false
  | .str s => !s.isEmpty
  | _ => true

/-- The head as used by the special-form `switch`: after unwrapping a
`Symbol` to its name, only string heads can match a `case` label (so a
string head such as the `"quote"` inserted by the reader also selects the
special form). -/
def headKey : Value → Option String
  | .symV s => some s
  | .str s => some s
  | _ => none

def specialNames : List String :=
  ["if", "quote", "define", "defined?", "set!", "lambda", "macro", "begin", "try"]

def isSpecialHead (v : Value) : Bool :=
  match headKey v with
  | some s => specialNames.contains s
  | none => false

/-- `undefined` and `null`: accessing `.constructor` on them throws. -/
def isNilUndef : Value → Bool
  | .undef => true
  | .nil => true
  | _ => false

/-- `X.slice(1)`-style indexing: JavaScript out-of-bounds reads give
`undefined`. -/
def jsIndex (xs : List Value) (i : Nat) : Value :=
  xs.getD i Value.undef

/-- `Environment.prototype.update(names, values)`, folding `define` over
the positional parameters (`names[i]`, `values[i]`), starting from the
frame `m`.  Missing values read as `undefined`; extra values are ignored;
a duplicated name keeps the later binding, as JS property writes do. -/
def bindInto : List (String × Value) → List Value → List Value → List (String × Value)
  | m, [], _ => m
  | m, p :: ps, args =>
    bindInto (defineM m (defKey p) (args.getD 0 Value.undef)) ps (args.drop 1)

/-- `update(names, values)` as used for parameter binding: a single
`Symbol` binds the whole argument list; an array binds positionally; a
string is array-like and binds its characters; `null`/`undefined` fault on
the `names.constructor` probe; any other value has no `length` property so
the loop body never runs. -/
def bindParams : Value → List Value → Except Err (List (String × Value))
  | .undef, _ => .error .hostTypeError
  | .nil, _ => .error .hostTypeError
  | .symV s, args => .ok [(s, .listV args)]
  | .listV ps, args => .ok (bindInto [] ps args)
  | .str s, args => .ok (bindInto [] (s.data.map (fun c => Value.str (String.mk [c]))) args)
  | _, _ => .ok []

/-- Host (`StdLib`) procedures, by registration name.  Only the handlers a
theorem below exercises are modelled; the rest are host code outside the
modelled fragment. -/
def applyHost (tag : String) (args : List Value) : Except Err Value :=
  match tag with
  | "+" => lispAdd args
  | "-" => lispSub args
  | "*" => lispMul args
  | "/" => lispDiv args
  | "list" => .ok (.listV args)
  | _ => .error (.unmodelled tag)

/-- `SpecialFunction` handlers (`env:current` is the only one registered). -/
def applySpecial (tag : String) (_args : List Value) (env : EnvT) : Except Err Value :=
  if tag = "env:current" then .ok (.envV env) else .error (.unmodelled tag)

mutual

/-- `NormalEval(X, Env)` from lispy.js.  Returns the resulting value
together with the (functionally threaded) caller environment chain. -/
def evalF : Nat → Value → EnvT → Except Err (Value × EnvT)
  | 0, _, _ => .error .outOfFuel
  | fuel + 1, x, env =>
    match x with
    | .undef => .ok (.undef, env)
    | .nil => .ok (.nil, env)
    | .symV s => (envGet env s).map (fun v => (v, env))
    | .listV xs =>
      let first := jsIndex xs 0
      if isNilUndef first then .error .hostTypeError
      else
        let hk := headKey first
        if hk = some "if" then
          (evalF fuel (jsIndex xs 1) env).bind (fun r =>
            let alt := if xs.length > 2 then jsIndex xs 3 else Value.nil
            evalF fuel (if truthy r.1 then jsIndex xs 2 else alt) r.2)
        else if hk = some "quote" then .ok (jsIndex xs 1, env)
        else if hk = some "define" then
          (evalF fuel (jsIndex xs 2) env).bind (fun r =>
            .ok (r.1, envDefine r.2 (defKey (jsIndex xs 1)) r.1))
        else if hk = some "defined?" then
          .ok (.bool (envPresent env (defKey (jsIndex xs 1))), env)
        else if hk = some "set!" then
          (evalF fuel (jsIndex xs 2) env).bind (fun r =>
            (envSet r.2 (defKey (jsIndex xs 1)) r.1).map (fun env2 => (r.1, env2)))
        else if hk = some "lambda" then
          .ok (.lamV (jsIndex xs 1) (jsIndex xs 2) env, env)
        else if hk = some "macro" then
          .ok (.macV (jsIndex xs 1) (jsIndex xs 2) env, env)
        else if hk = some "begin" then evalSeq fuel (xs.drop 1) env
        else if hk = some "try" then
          match evalF fuel (jsIndex xs 1) env with
          | .ok r => .ok r
          | .error .outOfFuel => .error .outOfFuel
          | .error (.unmodelled t) => .error (.unmodelled t)
          | .error err =>
            (evalF fuel (jsIndex xs 2) env).bind (fun h =>
              match h.1 with
              | .lamV params body lenv =>
                (bindParams params [.errV err]).bind (fun frame =>
                  evalF fuel body (.mk frame (some lenv)))
              | .hostFn tag => (applyHost tag [.errV err]).map (fun v => (v, h.2))
              | _ => .error (.invalidArgument "try requires a function/lambda for exception handler"))
        else evalApp fuel first (xs.drop 1) env
    | v => .ok (v, env)

/-- The `begin` loop: all but the last expression evaluated in sequence,
then the trampoline continues on the last (`Exps.shift()` of an empty
array is `undefined`, so `(begin)` continues on `undefined`). -/
def evalSeq : Nat → List Value → EnvT → Except Err (Value × EnvT)
  | 0, _, _ => .error .outOfFuel
  | fuel + 1, [], env => evalF fuel .undef env
  | fuel + 1, [e], env => evalF fuel e env
  | fuel + 1, e :: rest, env =>
    (evalF fuel e env).bind (fun r => evalSeq fuel rest r.2)

/-- `exps.map(Y => Eval(Y, Env))`: left-to-right argument evaluation. -/
def evalArgs : Nat → List Value → EnvT → Except Err (List Value × EnvT)
  | 0, _, _ => .error .outOfFuel
  | _ + 1, [], env => .ok ([], env)
  | fuel + 1, e :: rest, env =>
    (evalF fuel e env).bind (fun r =>
      (evalArgs fuel rest r.2).map (fun r2 => (r.1 :: r2.1, r2.2)))

/-- The application tail of `NormalEval`: evaluate the operator; a `Macro`
receives the raw operand expressions and its expansion re-enters the loop
in the caller's environment; otherwise the operands are evaluated and the
result dispatched on the operator's kind, falling back to member
invocation for data values. -/
def evalApp : Nat → Value → List Value → EnvT → Except Err (Value × EnvT)
  | 0, _, _, _ => .error .outOfFuel
  | fuel + 1, opExpr, rawArgs, env =>
    (evalF fuel opExpr env).bind (fun p =>
      if isNilUndef p.1 then .error .hostTypeError
      else
        match p.1 with
        | .macV params body menv =>
          (bindParams params rawArgs).bind (fun frame =>
            (evalF fuel body (.mk frame (some menv))).bind (fun ex =>
              evalF fuel ex.1 p.2))
        | proc =>
          (evalArgs fuel rawArgs p.2).bind (fun r =>
            match proc with
            | .spFn tag => (applySpecial tag r.1 r.2).map (fun v => (v, r.2))
            | .lamV params body lenv =>
              (bindParams params r.1).bind (fun frame =>
                (evalF fuel body (.mk frame (some lenv))).map (fun b => (b.1, r.2)))
            | .hostFn tag => (applyHost tag r.1).map (fun v => (v, r.2))
            | proc2 =>
              (memberInvoke fuel proc2 (to_s (jsIndex r.1 0)) (r.1.drop 1)).map
                (fun v => (v, r.2))))

/-- `proc[method](...args)` for a non-callable operator: member invocation
on the host object.  Class methods of `Environment`, `Symbol`, `Tuple` and
the standard `toString` members are modelled; a missing member is the host
`TypeError` from calling `undefined`; remaining host members are outside
the modelled fragment. -/
def memberInvoke : Nat → Value → String → List Value → Except Err Value
  | 0, _, _, _ => .error .outOfFuel
  | _ + 1, .envV e, method, args =>
    if method = "get" then envGetFrom e (defKey (jsIndex args 0)) none
    else if method = "present" then .ok (.bool (envPresent e (defKey (jsIndex args 0))))
    else if method = "define" then .ok (jsIndex args 1)
    else if method = "set" then
      (envSet e (defKey (jsIndex args 0)) (jsIndex args 1)).map (fun _ => jsIndex args 1)
    else if method = "keys" then .ok (.listV ((envKeys e).map Value.str))
    else if method = "toplevel" then .ok (.envV (envToplevel e))
    else if method = "toString" then .ok (.str "#Environment")
    else if method = "dump" then .ok .undef
    else if method = "update" then .ok .undef
    else .error .hostTypeError
  | fuel + 1, .dictV entries, method, args =>
    match entries.lookup method with
    | some (.lamV params body lenv) =>
      (bindParams params args).bind (fun frame =>
        (evalF fuel body (.mk frame (some lenv))).map Prod.fst)
    | some (.hostFn tag) => applyHost tag args
    | some _ => .error .hostTypeError
    | none =>
      if method = "toString" then .ok (.str "[object Object]")
      else .error .hostTypeError
  | _ + 1, .num q, method, args =>
    if method = "toString" ∧ args.isEmpty then .ok (.str (String.mk (numToString q)))
    else .error (.unmodelled "number member")
  | _ + 1, .nan, method, args =>
    if method = "toString" ∧ args.isEmpty then .ok (.str "NaN")
    else .error (.unmodelled "number member")
  | _ + 1, .str s, method, _ =>
    if method = "toString" then .ok (.str s)
    else .error (.unmodelled "string member")
  | _ + 1, .symV s, method, _ =>
    if method = "toString" then .ok (.str (String.mk (chQuote :: s.data)))
    else .error .hostTypeError
  | _ + 1, .bool b, method, _ =>
    if method = "toString" then .ok (.str (if b then "true" else "false"))
    else .error .hostTypeError
  | _ + 1, .tupV xs, method, _ =>
    if method = "toString" then .ok (.str (String.mk (toStr (Value.tupV xs) false)))
    else .error (.unmodelled "tuple member")
  | _ + 1, _, _, _ => .error (.unmodelled "host member")

end

example : evalF 3 (.listV [.symV "if", .num 0, .num 1, .num 2]) emptyEnv
    = .ok (.num 2, emptyEnv) := rfl

example : evalF 3 (.listV [.symV "if", .bool false, .num 1]) emptyEnv
    = .ok (.undef, emptyEnv) := rfl

example : evalF 3 (.listV [.symV "begin"]) emptyEnv = .ok (.undef, emptyEnv) := rfl

example : evalF 9 (.listV [.num 7, .str "toString"]) emptyEnv
    = .ok (.str "7", emptyEnv) := rfl

/-! ## Tokeniser and reader

`tokenise`, `read_from` and `atom` from lispy.js.  The index-based scanning
loops become recursions on the remaining character/token lists; one unit of
fuel is spent per outer-loop iteration, and the budgets chosen in `Parse`
always suffice (each iteration consumes input). -/

/-- The do/while scanner for a `"..."` token, after the opening quote:
each step first decrements a pending escape counter, then arms it (to 2)
on a backslash; the scan stops at an unescaped `"` (kept in the token) or
at the end of input. -/
def scanStr : List Char → Nat → List Char × List Char
  | [], _ => ([], [])
  | c :: rest, esc =>
    let esc1 := if esc ≠ 0 then esc - 1 else esc
    let esc2 := if c.toNat = 92 then 2 else esc1
    if esc2 ≠ 0 ∨ c.toNat ≠ 34 then
      let pr := scanStr rest esc2
      (c :: pr.1, pr.2)
    else ([c], rest)

/-- A generic-token character: not whitespace and not one of `()[]{}`. -/
def genericCh (c : Char) : Bool := !(isspaceCh c) && !(isSepCh c)

/-- `tokenise(str)` from lispy.js.  Quirks preserved: `;;` starts a line
comment; a separator is its own token; a string token keeps its quotes;
input that ends in trailing whitespace emits one final empty token (the
generic branch runs at end of input). -/
def tokeniseF : Nat → List Char → List (List Char)
  | 0, _ => []
  | fuel + 1, cs =>
    match cs with
    | [] => []
    | _ :: _ =>
      match cs.dropWhile isspaceCh with
      | [] => [[]]
      | c :: rest =>
        if c.toNat = 59 ∧ rest.head?.any (fun d => d.toNat == 59) then
          tokeniseF fuel ((c :: rest).dropWhile (fun d => !(d.toNat == 10 || d.toNat == 13)))
        else if isSepCh c then [c] :: tokeniseF fuel rest
        else if c.toNat = 34 then
          let pr := scanStr rest 0
          (c :: pr.1) :: tokeniseF fuel pr.2
        else
          ((c :: rest).takeWhile genericCh) :: tokeniseF fuel ((c :: rest).dropWhile genericCh)

/-- Escape decoding for string atoms: `\t \v \0 \b \f \n \r` map to their
control characters; any other escaped character stands for itself. -/
def escCh (c : Char) : Char :=
  if c = 't' then Char.ofNat 9
  else if c = 'v' then Char.ofNat 11
  else if c = '0' then Char.ofNat 0
  else if c = 'b' then Char.ofNat 8
  else if c = 'f' then Char.ofNat 12
  else if c = 'n' then Char.ofNat 10
  else if c = 'r' then Char.ofNat 13
  else c

/-- The `replace(/(\\.)/g, ...)` pass over a string atom's inner text; a
trailing lone backslash is not matched by the regex and stays. -/
def unescape : List Char → List Char
  | [] => []
  | c :: rest =>
    if c.toNat = 92 then
      match rest with
      | [] => [c]
      | d :: rest2 => escCh d :: unescape rest2
    else c :: unescape rest

/-- `isdigit(token[0]) || token.length > 1 && token[0] === '-' && isdigit(token[1])`. -/
def digitStart : List Char → Bool
  | [] => false
  | c :: rest =>
    isDigitCh c ||
      (c.toNat == 45 &&
        match rest with
        | d :: _ => isDigitCh d
        | [] => false)

/-- `atom(token)` from lispy.js: a quoted token is a string (quotes
stripped, escapes decoded); a digit-led token goes through `Number(...)`
(yielding the `NaN` value when the coercion fails); anything else is a
`Symbol`. -/
def atomV (tok : List Char) : Value :=
  if tok.head?.any (fun c => c.toNat == 34) ∧ tok.getLast?.any (fun c => c.toNat == 34) then
    .str (String.mk (unescape ((tok.drop 1).dropLast)))
  else if digitStart tok then
    match jsNumberChars tok with
    | some q => .num q
    | none => .nan
  else .symV (String.mk tok)

mutual

/-- `read_from(tokens)` from lispy.js.  `(`/`[`/`{` open a list (the
latter two prefixed with the `list`/`tuple` symbol); a `'` token or
prefix wraps the next form in a quote cell whose head is the plain
string `"quote"` (as in the source); anything else is an atom.  Returns
the form and the remaining tokens. -/
def readFromF : Nat → List (List Char) → Except Err (Value × List (List Char))
  | 0, _ => .error .outOfFuel
  | _ + 1, [] => .error (.parserError "Missing opening token")
  | fuel + 1, tok :: rest =>
    if tok = [chLP] then
      (readCellsF fuel chRP rest []).map (fun pr => (Value.listV pr.1, pr.2))
    else if tok = [chLB] then
      (readCellsF fuel chRB rest []).map
        (fun pr => (Value.listV (Value.symV "list" :: pr.1), pr.2))
    else if tok = [chLC] then
      (readCellsF fuel chRC rest []).map
        (fun pr => (Value.listV (Value.symV "tuple" :: pr.1), pr.2))
    else if tok = [chQuote] then
      (readFromF fuel rest).map (fun pr => (Value.listV [Value.str "quote", pr.1], pr.2))
    else if tok.head?.any (fun c => c.toNat == 39) then
      (readFromF fuel (tok.drop 1 :: rest)).map
        (fun pr => (Value.listV [Value.str "quote", pr.1], pr.2))
    else .ok (atomV tok, rest)

/-- The `while (tokens[0] !== close)` cell loop.  An empty stream at the
loop head surfaces as the recursive `read_from`'s "Missing opening token"
error; a stream emptied right after reading a cell raises "Missing
closing" as in the source. -/
def readCellsF : Nat → Char → List (List Char) → List Value → Except Err (List Value × List (List Char))
  | 0, _, _, _ => .error .outOfFuel
  | _ + 1, _, [], _ => .error (.parserError "Missing opening token")
  | fuel + 1, close, t :: rest, acc =>
    if t = [close] then .ok (acc, rest)
    else
      (readFromF fuel (t :: rest)).bind (fun pr =>
        if pr.2.isEmpty then .error (.parserError "Missing closing")
        else readCellsF fuel close pr.2 (acc ++ [pr.1]))

end

/-- `Parse(code) = read_from(tokenise(code))` from lispy.js, with fuel
budgets that always suffice: the tokeniser consumes at least one character
per iteration, and every reader call either consumes a token or strips a
quote character from one. -/
def Parse (s : String) : Except Err Value :=
  (readFromF (2 * s.length + 8) (tokeniseF (s.length + 1) s.data)).map Prod.fst

example : Parse "(1)" = .ok (.listV [.num 1]) := rfl

example : to_string (.listV [.num 1]) false = "[1]" := rfl

example : Parse "[1]" = .ok (.listV [.symV "list", .num 1]) := rfl

example : Parse "{1 2}" = .ok (.listV [.symV "tuple", .num 1, .num 2]) := rfl

example : Parse "x" = .ok (.symV "x") := rfl

example : Parse "-25" = .ok (.num (-25)) := rfl

/-- Values that reach the member-invocation fallback of the application
tail: everything that is not `undefined`/`null` (which fault earlier, at
the `proc.constructor` probe) and not a `Macro`, `Lambda`,
`SpecialFunction` or host procedure (which have their own branches). -/
def isDataValue : Value → Bool
  | .undef => false
  | .nil => false
  | .macV _ _ _ => false
  | .lamV _ _ _ => false
  | .spFn _ => false
  | .hostFn _ => false
  | _ => true

/-! ## Theorems settling the claims -/

theorem notSpecialHead (v : Value) (h : isSpecialHead v = false) :
    headKey v ≠ some "if" ∧ headKey v ≠ some "quote" ∧ headKey v ≠ some "define"
    ∧ headKey v ≠ some "defined?" ∧ headKey v ≠ some "set!" ∧ headKey v ≠ some "lambda"
    ∧ headKey v ≠ some "macro" ∧ headKey v ≠ some "begin" ∧ headKey v ≠ some "try" := by
  rw [isSpecialHead] at h
  cases hv : headKey v with
  | none => simp
  | some s =>
    rw [hv] at h
    simp only [specialNames, List.contains_cons, Bool.or_eq_false_iff,
      List.contains_nil, beq_eq_false_iff_ne, ne_eq] at h
    simp only [ne_eq, Option.some.injEq]
    exact ⟨h.1, h.2.1, h.2.2.1, h.2.2.2.1, h.2.2.2.2.1, h.2.2.2.2.2.1,
      h.2.2.2.2.2.2.1, h.2.2.2.2.2.2.2.1, h.2.2.2.2.2.2.2.2.1⟩

/-- C1 counterexample.  The claim says the number `0` selects the
then-branch; the code hands the evaluated condition to a JavaScript `?:`,
whose truthiness makes `0` select the else-branch: `(if 0 1 2)` is `2`. -/
theorem C1_counterexample :
    evalF 3 (.listV [.symV "if", .num 0, .num 1, .num 2]) emptyEnv
      = .ok (.num 2, emptyEnv)
    ∧ Value.num 2 ≠ Value.num 1 := by
  refine ⟨rfl, fun h => ?_⟩
  injection h with h2
  exact absurd h2 (by norm_num)

/-- C1, amended: evaluating `(if C T E)` continues with the else-branch
exactly when the condition value is JavaScript-falsy — `Bool(false)`,
`Nil`, `Undefined`, the number `0` (or `NaN`), or the empty string; every
other value, the empty list included, selects the then-branch. -/
theorem C1_amended (n : ℕ) (env env1 : EnvT) (C T E v : Value)
    (h : evalF n C env = .ok (v, env1)) :
    evalF (n + 1) (.listV [.symV "if", C, T, E]) env
      = evalF n (if truthy v then T else E) env1
    ∧ (truthy v = false ↔
        (v = .bool false ∨ v = .nil ∨ v = .undef ∨ v = .num 0 ∨ v = .nan ∨ v = .str "")) := by
  constructor
  · have h1 : evalF (n + 1) (.listV [.symV "if", C, T, E]) env
        = (evalF n C env).bind (fun r => evalF n (if truthy r.1 then T else E) r.2) := rfl
    rw [h1, h]
    rfl
  · cases v <;> simp [truthy, String.isEmpty_iff]

/-- Witness for `C1_amended` at the condition value `0`. -/
theorem C1_amended_w :
    evalF 2 (.listV [.symV "if", .num 0, .num 1, .num 2]) emptyEnv
      = evalF 1 (if truthy (.num 0) then Value.num 1 else Value.num 2) emptyEnv
    ∧ (truthy (.num 0) = false ↔
        (Value.num 0 = .bool false ∨ Value.num 0 = .nil ∨ Value.num 0 = .undef
          ∨ Value.num 0 = .num 0 ∨ Value.num 0 = .nan ∨ Value.num 0 = .str "")) :=
  C1_amended 1 emptyEnv emptyEnv (.num 0) (.num 1) (.num 2) (.num 0) rfl

/-- C2 counterexample.  The claim says `(- x)` is `-x` and `(+)` is `0`;
`Array.prototype.reduce` with no initial value returns a singleton's
element unchanged — so `(- 5)` is `5` — and throws a host `TypeError` on
an empty argument list. -/
theorem C2_counterexample :
    lispSub [.num 5] = .ok (.num 5)
    ∧ Value.num 5 ≠ Value.num (-5)
    ∧ lispAdd [] = .error .hostTypeError := by
  refine ⟨rfl, fun h => ?_, rfl⟩
  injection h with h2
  exact absurd h2 (by norm_num)

/-- C2, amended: all four variadic arithmetic primitives are
`reduce`-based — with zero arguments each raises a host `TypeError`
(reduce of an empty array with no initial value), with one argument each
returns that argument unchanged (so `(- x) = x` and `(/ x) = x`), and
with two or more arguments each left-folds its binary operation. -/
theorem C2_amended :
    (lispAdd [] = .error .hostTypeError ∧ lispSub [] = .error .hostTypeError
      ∧ lispMul [] = .error .hostTypeError ∧ lispDiv [] = .error .hostTypeError)
    ∧ (∀ x : Value, lispAdd [x] = .ok x ∧ lispSub [x] = .ok x
        ∧ lispMul [x] = .ok x ∧ lispDiv [x] = .ok x)
    ∧ (∀ (a b : Value) (rest : List Value),
        lispAdd (a :: b :: rest) = .ok (rest.foldl jsAdd (jsAdd a b))
        ∧ lispSub (a :: b :: rest) = .ok (rest.foldl jsSub (jsSub a b))
        ∧ lispMul (a :: b :: rest) = .ok (rest.foldl jsMul (jsMul a b))
        ∧ lispDiv (a :: b :: rest) = .ok (rest.foldl jsDiv (jsDiv a b))) :=
  ⟨⟨rfl, rfl, rfl, rfl⟩, fun _ => ⟨rfl, rfl, rfl, rfl⟩,
    fun _ _ _ => ⟨rfl, rfl, rfl, rfl⟩⟩

/-- C3: the claim (and the code's own comment `Alt=Nil`) says the missing
alternative of a two-operand `if` defaults to `Nil`; but the arity test
`X.length > 2` also fires for `(if C T)` (length 3), so `Alt` becomes the
out-of-bounds read `X[3] = undefined`, and `(if false 1)` evaluates to
`Undefined`, not `Nil`. -/
theorem C3_code_bug :
    evalF 3 (.listV [.symV "if", .bool false, .num 1]) emptyEnv
      = .ok (.undef, emptyEnv)
    ∧ Value.undef ≠ Value.nil :=
  ⟨rfl, fun h => Value.noConfusion h⟩

/-- C4 counterexample.  `(begin)` does not return `Nil`: the begin loop
ends with `X = Exps.shift()`, which on an empty array is `undefined`, and
the trampoline returns that `Undefined`. -/
theorem C4_counterexample :
    evalF 3 (.listV [.symV "begin"]) emptyEnv = .ok (.undef, emptyEnv)
    ∧ Value.undef ≠ Value.nil :=
  ⟨rfl, fun h => Value.noConfusion h⟩

/-- C4, amended: evaluating `(begin)` with zero sub-expressions returns
`Undefined` (not `Nil`), in every environment. -/
theorem C4_amended (n : ℕ) (env : EnvT) :
    evalF (n + 3) (.listV [.symV "begin"]) env = .ok (.undef, env) := rfl

/-- C5: symbol lookup does raise `KeyNotFound` when the chain has at least
one parent (third conjunct), but on a parentless environment the failing
lookup faults with a host `TypeError` instead: `Environment.get` is called
with no `from` argument, and `KeyNotFoundError`'s constructor runs
`from.dump(key)` on that `undefined`. -/
theorem C5_code_bug :
    evalF 1 (.symV "x") emptyEnv = .error .hostTypeError
    ∧ envPresent emptyEnv "x" = false
    ∧ envGetFrom (.mk [] (some emptyEnv)) "x" none = .error (.keyNotFound "x") :=
  ⟨rfl, rfl, rfl⟩

/-- C7 counterexample.  The claim says applying a number raises
`InvalidOperation`; the first-variant evaluator has no such branch — every
non-callable operator takes the member-invocation path, so
`(7 "toString")` returns the string `"7"` instead of raising. -/
theorem C7_counterexample :
    evalF 9 (.listV [.num 7, .str "toString"]) emptyEnv = .ok (.str "7", emptyEnv)
    ∧ (Except.ok ((Value.str "7"), emptyEnv)
        ≠ (Except.error .invalidOperation : Except Err (Value × EnvT))) :=
  ⟨rfl, fun h => Except.noConfusion h⟩

/-- C8 counterexample.  `to_string` prints every list with square
brackets, and the reader expands `[...]` to `(list ...)`: the parsed
expression `(1)` prints as `"[1]"`, which re-parses to `(list 1)` — not
structurally equal to `(1)`. -/
theorem C8_counterexample :
    Parse "(1)" = .ok (.listV [.num 1])
    ∧ to_string (.listV [.num 1]) false = "[1]"
    ∧ Parse "[1]" = .ok (.listV [.symV "list", .num 1])
    ∧ Value.listV [.symV "list", .num 1] ≠ Value.listV [.num 1] := by
  refine ⟨rfl, rfl, rfl, fun h => ?_⟩
  injection h with h1
  injection h1 with h2 h3
  exact List.noConfusion h3

/-- C10: the environment's `key in members` test sees properties inherited
from `Object.prototype`, so `present` is true for names like `toString`
on every environment — even one in which nothing was ever defined — and
`get` returns the inherited host value (the own binding when one exists)
instead of raising `KeyNotFound`; evaluating such a symbol therefore
never fails. -/
theorem C10_theorem (e : EnvT) (key : String) (h : key ∈ protoProps) :
    envPresent e key = true
    ∧ envGet e key = .ok (frameVal e.members key)
    ∧ evalF 1 (.symV key) e = .ok (frameVal e.members key, e) := by
  obtain ⟨m, p⟩ := e
  have hc : protoProps.contains key = true := List.elem_eq_true_of_mem h
  have hf : frameHas m key = true := by
    rw [frameHas, hc, Bool.or_true]
  have h1 : envPresent (.mk m p) key
      = (frameHas m key ||
          (match p with
           | some par => envPresent par key
           | none => false)) := by
    rw [envPresent.eq_def]
  have h2 : envGet (.mk m p) key = .ok (frameVal m key) := by
    rw [envGet, envGetFrom.eq_def]
    exact if_pos hf
  have h3 : evalF 1 (.symV key) (.mk m p)
      = (envGet (.mk m p) key).map (fun v => (v, EnvT.mk m p)) := by
    rw [evalF.eq_def]
  have hmem : (EnvT.mk m p).members = m := rfl
  refine ⟨?_, ?_, ?_⟩
  · rw [h1, hf, Bool.true_or]
  · rw [hmem]
    exact h2
  · rw [h3, h2, hmem]
    rfl

/-- Witness for `C10_theorem`: `toString` on the empty environment. -/
theorem C10_theorem_w :
    envPresent emptyEnv "toString" = true
    ∧ envGet emptyEnv "toString" = .ok (frameVal emptyEnv.members "toString")
    ∧ evalF 1 (.symV "toString") emptyEnv
      = .ok (frameVal emptyEnv.members "toString", emptyEnv) :=
  C10_theorem emptyEnv "toString" (by simp [protoProps])

/-- Dispatch lemma: a list whose head is neither `undefined`/`null` nor a
special-form name is evaluated as an application. -/
theorem evalF_app (n : ℕ) (env : EnvT) (opExpr : Value) (rawArgs : List Value)
    (hSpec : isSpecialHead opExpr = false) (hNU : isNilUndef opExpr = false) :
    evalF (n + 1) (.listV (opExpr :: rawArgs)) env = evalApp n opExpr rawArgs env := by
  obtain ⟨k1, k2, k3, k4, k5, k6, k7, k8, k9⟩ := notSpecialHead opExpr hSpec
  simp only [evalF, jsIndex, List.getD_cons_zero, hNU, Bool.false_eq_true, if_false,
    k1, k2, k3, k4, k5, k6, k7, k8, k9, List.drop_succ_cons, List.drop_zero]

/-- C6: when the operator of an application evaluates to a `Macro`, the
unevaluated operand expressions are bound to its parameters in a fresh
child of the macro's captured environment `menv`; the body is evaluated in
that child to obtain the expansion, and the expansion is then evaluated in
the caller's environment `env1` — not the macro's. -/
theorem C6_theorem (n : ℕ) (env env1 menv : EnvT) (params body opExpr : Value)
    (rawArgs : List Value)
    (hSpec : isSpecialHead opExpr = false) (hNU : isNilUndef opExpr = false)
    (hOp : evalF n opExpr env = .ok (.macV params body menv, env1)) :
    evalF (n + 2) (.listV (opExpr :: rawArgs)) env
      = (bindParams params rawArgs).bind (fun frame =>
          (evalF n body (EnvT.mk frame (some menv))).bind (fun ex =>
            evalF n ex.1 env1)) := by
  rw [evalF_app (n + 1) env opExpr rawArgs hSpec hNU]
  simp only [evalApp]
  rw [hOp]
  rfl

/-- Witness for `C6_theorem`: expanding `(m 7)` where `m` is a macro with
parameter list `(a)` and body `a` — the expansion is the raw operand `7`,
which is then evaluated in the caller's environment. -/
theorem C6_theorem_w :
    evalF 3
      (.listV [.symV "m", .num 7])
      (EnvT.mk [("m", .macV (.listV [.symV "a"]) (.symV "a") emptyEnv)] none)
      = (bindParams (.listV [.symV "a"]) [.num 7]).bind (fun frame =>
          (evalF 1 (.symV "a") (EnvT.mk frame (some emptyEnv))).bind (fun ex =>
            evalF 1 ex.1
              (EnvT.mk [("m", .macV (.listV [.symV "a"]) (.symV "a") emptyEnv)] none))) :=
  C6_theorem 1
    (EnvT.mk [("m", .macV (.listV [.symV "a"]) (.symV "a") emptyEnv)] none)
    (EnvT.mk [("m", .macV (.listV [.symV "a"]) (.symV "a") emptyEnv)] none)
    emptyEnv (.listV [.symV "a"]) (.symV "a") (.symV "m") [.num 7] rfl rfl rfl

/-- `isDataValue` values are not `undefined`/`null`. -/
theorem dataNotNilUndef (v : Value) (h : isDataValue v = true) : isNilUndef v = false := by
  cases v <;> first
    | rfl
    | exact absurd h (by rw [isDataValue]; exact Bool.false_ne_true)

/-- C7, amended: when the evaluated operator is any data value — an
`Environment` or `Dict`, but equally a number, string, symbol, list,
tuple or error object — the call takes the member-invocation path: the
stringified first evaluated argument names the member, which is invoked
with the remaining arguments (`memberInvoke`; a host `TypeError` results
when no such callable member exists).  `InvalidOperation` is never
raised at this dispatch point (the error class exists in the source but no
code path throws it); a `nil`/`undefined` operator instead faults earlier,
at the `proc.constructor` probe. -/
theorem C7_amended (n : ℕ) (env env1 env2 : EnvT) (opExpr proc : Value)
    (rawArgs args : List Value)
    (hSpec : isSpecialHead opExpr = false) (hNU : isNilUndef opExpr = false)
    (hData : isDataValue proc = true)
    (hOp : evalF n opExpr env = .ok (proc, env1))
    (hArgs : evalArgs n rawArgs env1 = .ok (args, env2)) :
    evalF (n + 2) (.listV (opExpr :: rawArgs)) env
      = (memberInvoke n proc (to_s (jsIndex args 0)) (args.drop 1)).map
          (fun v => (v, env2)) := by
  rw [evalF_app (n + 1) env opExpr rawArgs hSpec hNU]
  simp only [evalApp]
  rw [hOp]
  cases proc <;> first
    | exact absurd hData (by rw [isDataValue]; exact Bool.false_ne_true)
    | (show (evalArgs n rawArgs env1).bind _ = _
       rw [hArgs]
       rfl)

/-- Witness for `C7_amended`: `(E "get" "a")` where `E` is a first-class
environment value binding `a` — a member invocation of `E.get`. -/
theorem C7_amended_w :
    evalF 5 (.listV [.envV (EnvT.mk [("a", .num 1)] none), .str "get", .str "a"]) emptyEnv
      = (memberInvoke 3 (.envV (EnvT.mk [("a", .num 1)] none))
          (to_s (jsIndex [Value.str "get", Value.str "a"] 0))
          ([Value.str "get", Value.str "a"].drop 1)).map (fun v => (v, emptyEnv)) :=
  C7_amended 3 emptyEnv emptyEnv emptyEnv (.envV (EnvT.mk [("a", .num 1)] none))
    (.envV (EnvT.mk [("a", .num 1)] none)) [.str "get", .str "a"]
    [.str "get", .str "a"] rfl rfl rfl rfl rfl

/-! ### C9: `set!` invariants -/

/-- The chain depth of an environment (for induction). -/
def envDepth : EnvT → Nat
  | .mk _ none => 0
  | .mk _ (some par) => envDepth par + 1

/-- "`set` assigns to the nearest enclosing environment that already binds
the name": the written chain differs from the original exactly in the
first node whose members contain the key, where the key is (re)defined. -/
inductive WritesNearest (key : String) (v : Value) : EnvT → EnvT → Prop
  | here (m : List (String × Value)) (p : Option EnvT) :
      frameHas m key = true →
      WritesNearest key v (.mk m p) (.mk (defineM m key v) p)
  | parent (m : List (String × Value)) (e e2 : EnvT) :
      frameHas m key = false → WritesNearest key v e e2 →
      WritesNearest key v (.mk m (some e)) (.mk m (some e2))

theorem lookup_defineM_self (m : List (String × Value)) (k : String) (v : Value) :
    (defineM m k v).lookup k = some v := by
  induction m with
  | nil => simp [defineM]
  | cons a rest ih =>
    obtain ⟨k1, v1⟩ := a
    by_cases h : k1 = k
    · simp [defineM, h]
    · have hb : (k == k1) = false := beq_eq_false_iff_ne.mpr (Ne.symm h)
      simp [defineM, h, List.lookup_cons, hb, ih]

theorem lookup_defineM_ne (m : List (String × Value)) (k : String) (v : Value)
    (k2 : String) (h : k2 ≠ k) :
    (defineM m k v).lookup k2 = m.lookup k2 := by
  induction m with
  | nil => simp [defineM, h]
  | cons a rest ih =>
    obtain ⟨k1, v1⟩ := a
    by_cases h1 : k1 = k
    · subst h1
      have hb : (k2 == k1) = false := beq_eq_false_iff_ne.mpr h
      simp [defineM, List.lookup_cons, hb]
    · simp [defineM, h1, List.lookup_cons, ih]

theorem frameHas_defineM (m : List (String × Value)) (key : String) (v : Value)
    (hF : frameHas m key = true) (k2 : String) :
    frameHas (defineM m key v) k2 = frameHas m k2 := by
  by_cases h : k2 = key
  · subst h
    rw [hF, frameHas, lookup_defineM_self]
    rfl
  · rw [frameHas, frameHas, lookup_defineM_ne _ _ _ _ h]

theorem envPresent_mk_none (m : List (String × Value)) (key : String) :
    envPresent (.mk m none) key = frameHas m key := by
  rw [envPresent.eq_def]
  exact Bool.or_false _

theorem envPresent_mk_some (m : List (String × Value)) (par : EnvT) (key : String) :
    envPresent (.mk m (some par)) key = (frameHas m key || envPresent par key) := by
  rw [envPresent.eq_def]

theorem envSet_mk_has (m : List (String × Value)) (p : Option EnvT) (key : String)
    (v : Value) (hF : frameHas m key = true) :
    envSet (.mk m p) key v = .ok (.mk (defineM m key v) p) := by
  rw [envSet.eq_def]
  exact if_pos hF

theorem envSet_mk_none (m : List (String × Value)) (key : String) (v : Value)
    (hF : frameHas m key = false) :
    envSet (.mk m none) key v = .error (.keyNotFound key) := by
  rw [envSet.eq_def]
  simp [hF]

theorem envSet_mk_some (m : List (String × Value)) (par : EnvT) (key : String)
    (v : Value) (hF : frameHas m key = false) :
    envSet (.mk m (some par)) key v
      = (envSet par key v).map (fun par2 => .mk m (some par2)) := by
  rw [envSet.eq_def]
  simp [hF]

theorem envGetFrom_mk_has (m : List (String × Value)) (p : Option EnvT) (key : String)
    (fr : Option EnvT) (hF : frameHas m key = true) :
    envGetFrom (.mk m p) key fr = .ok (frameVal m key) := by
  rw [envGetFrom.eq_def]
  exact if_pos hF

theorem envGetFrom_mk_some (m : List (String × Value)) (par : EnvT) (key : String)
    (fr : Option EnvT) (hF : frameHas m key = false) :
    envGetFrom (.mk m (some par)) key fr
      = envGetFrom par key (some (fr.getD (.mk m (some par)))) := by
  rw [envGetFrom.eq_def]
  simp [hF]

theorem envSetSpecAux : ∀ (d : Nat) (e : EnvT), envDepth e ≤ d → ∀ (key : String) (v : Value),
    (envPresent e key = false → envSet e key v = .error (.keyNotFound key))
    ∧ (∀ e2, envSet e key v = .ok e2 →
        envPresent e key = true
        ∧ WritesNearest key v e e2
        ∧ (∀ fr, envGetFrom e2 key fr = .ok v)
        ∧ (∀ k2, envPresent e2 k2 = envPresent e k2)) := by
  intro d
  induction d with
  | zero =>
    intro e hle key v
    obtain ⟨m, p⟩ := e
    cases p with
    | some par => exact absurd hle (by simp [envDepth])
    | none =>
      by_cases hF : frameHas m key = true
      · refine ⟨fun hP => absurd hP ?_, fun e2 h2 => ?_⟩
        · simp [envPresent_mk_none, hF]
        · rw [envSet_mk_has _ _ _ _ hF] at h2
          injection h2 with h3
          subst h3
          refine ⟨by simp [envPresent_mk_none, hF], .here m none hF, fun fr => ?_, fun k2 => ?_⟩
          · rw [envGetFrom_mk_has _ _ _ _ (by rw [frameHas, lookup_defineM_self]; rfl)]
            rw [frameVal, lookup_defineM_self]
            rfl
          · rw [envPresent_mk_none, envPresent_mk_none, frameHas_defineM _ _ _ hF]
      · rw [Bool.not_eq_true] at hF
        refine ⟨fun _ => envSet_mk_none _ _ _ hF, fun e2 h2 => ?_⟩
        rw [envSet_mk_none _ _ _ hF] at h2
        exact Except.noConfusion h2
  | succ d ih =>
    intro e hle key v
    obtain ⟨m, p⟩ := e
    cases p with
    | none =>
      by_cases hF : frameHas m key = true
      · refine ⟨fun hP => absurd hP ?_, fun e2 h2 => ?_⟩
        · simp [envPresent_mk_none, hF]
        · rw [envSet_mk_has _ _ _ _ hF] at h2
          injection h2 with h3
          subst h3
          refine ⟨by simp [envPresent_mk_none, hF], .here m none hF, fun fr => ?_, fun k2 => ?_⟩
          · rw [envGetFrom_mk_has _ _ _ _ (by rw [frameHas, lookup_defineM_self]; rfl)]
            rw [frameVal, lookup_defineM_self]
            rfl
          · rw [envPresent_mk_none, envPresent_mk_none, frameHas_defineM _ _ _ hF]
      · rw [Bool.not_eq_true] at hF
        refine ⟨fun _ => envSet_mk_none _ _ _ hF, fun e2 h2 => ?_⟩
        rw [envSet_mk_none _ _ _ hF] at h2
        exact Except.noConfusion h2
    | some par =>
      have hdep : envDepth par ≤ d := by
        have : envDepth (.mk m (some par)) = envDepth par + 1 := by rw [envDepth]
        omega
      by_cases hF : frameHas m key = true
      · refine ⟨fun hP => absurd hP ?_, fun e2 h2 => ?_⟩
        · simp [envPresent_mk_some, hF]
        · rw [envSet_mk_has _ _ _ _ hF] at h2
          injection h2 with h3
          subst h3
          refine ⟨by simp [envPresent_mk_some, hF], .here m (some par) hF, fun fr => ?_,
            fun k2 => ?_⟩
          · rw [envGetFrom_mk_has _ _ _ _ (by rw [frameHas, lookup_defineM_self]; rfl)]
            rw [frameVal, lookup_defineM_self]
            rfl
          · rw [envPresent_mk_some, envPresent_mk_some, frameHas_defineM _ _ _ hF]
      · rw [Bool.not_eq_true] at hF
        refine ⟨fun hP => ?_, fun e2 h2 => ?_⟩
        · rw [envPresent_mk_some, hF, Bool.false_or] at hP
          rw [envSet_mk_some _ _ _ _ hF, ((ih par hdep key v).1 hP)]
          rfl
        · rw [envSet_mk_some _ _ _ _ hF] at h2
          cases hpar : envSet par key v with
          | error err =>
            rw [hpar] at h2
            exact Except.noConfusion h2
          | ok par2 =>
            rw [hpar] at h2
            injection h2 with h3
            subst h3
            obtain ⟨hPres, hWN, hGet, hPresPres⟩ := (ih par hdep key v).2 par2 hpar
            refine ⟨by simp [envPresent_mk_some, hPres], .parent m par par2 hF hWN,
              fun fr => ?_, fun k2 => ?_⟩
            · rw [envGetFrom_mk_some _ _ _ _ hF]
              exact hGet _
            · rw [envPresent_mk_some, envPresent_mk_some, hPresPres]

/-- C9: `Environment.set` (the engine of both the `set!` special form and
the `env:set!` primitive) never creates a new visible binding — it
rewrites the nearest node of the chain whose members already contain the
name (`WritesNearest`), succeeds exactly when `present` was already true,
leaves the visible key set unchanged, and makes the new value readable;
when no node binds the name it raises `KeyNotFound` and no updated chain
is produced. -/
theorem C9_theorem (e : EnvT) (key : String) (v : Value) :
    (envPresent e key = false → envSet e key v = .error (.keyNotFound key))
    ∧ (∀ e2, envSet e key v = .ok e2 →
        envPresent e key = true
        ∧ WritesNearest key v e e2
        ∧ envGet e2 key = .ok v
        ∧ (∀ k2, envPresent e2 k2 = envPresent e k2)) := by
  obtain ⟨h1, h2⟩ := envSetSpecAux (envDepth e) e (Nat.le_refl _) key v
  exact ⟨h1, fun e2 hset =>
    ⟨(h2 e2 hset).1, (h2 e2 hset).2.1, (h2 e2 hset).2.2.1 none, (h2 e2 hset).2.2.2⟩⟩

/-- Witness for `C9_theorem`: a one-node chain binding `x`; `set!` of `x`
succeeds and rewrites that node, `set!` of the unbound `y` raises. -/
theorem C9_theorem_w :
    (envPresent (EnvT.mk [("x", Value.num 1)] none) "y" = false →
      envSet (EnvT.mk [("x", Value.num 1)] none) "y" (Value.num 2)
        = .error (.keyNotFound "y"))
    ∧ (envPresent (EnvT.mk [("x", Value.num 1)] none) "x" = true
        ∧ WritesNearest "x" (Value.num 2) (EnvT.mk [("x", Value.num 1)] none)
            (EnvT.mk [("x", Value.num 2)] none)
        ∧ envGet (EnvT.mk [("x", Value.num 2)] none) "x" = .ok (Value.num 2)
        ∧ (∀ k2, envPresent (EnvT.mk [("x", Value.num 2)] none) k2
            = envPresent (EnvT.mk [("x", Value.num 1)] none) k2)) :=
  ⟨(C9_theorem (EnvT.mk [("x", Value.num 1)] none) "y" (Value.num 2)).1,
    (C9_theorem (EnvT.mk [("x", Value.num 1)] none) "x" (Value.num 2)).2
      (EnvT.mk [("x", Value.num 2)] none) rfl⟩

/-! ### C8: the printed-form round-trip for integer number atoms -/

theorem digitCh_toNat (d : Nat) (h : d < 10) : (digitCh d).toNat = 48 + d := by
  interval_cases d <;> rfl

theorem charVal_digitCh (d : Nat) (h : d < 10) : charVal (digitCh d) = d := by
  rw [charVal, digitCh_toNat d h]
  omega

theorem isDigitCh_digitCh (d : Nat) (h : d < 10) : isDigitCh (digitCh d) = true := by
  rw [isDigitCh, digitCh_toNat d h]
  simp only [Bool.and_eq_true, decide_eq_true_eq]
  omega

theorem digitsVal_append_single (A : List Char) (c : Char) :
    digitsVal (A ++ [c]) = 10 * digitsVal A + charVal c := by
  rw [digitsVal, digitsVal, List.foldl_append]
  rfl

theorem natReprAux_all : ∀ (fuel n : Nat), (natReprAux fuel n).all isDigitCh = true := by
  intro fuel
  induction fuel with
  | zero => intro n; rfl
  | succ f ih =>
    intro n
    simp only [natReprAux]
    by_cases h : n = 0
    · rw [if_pos h]; rfl
    · rw [if_neg h, List.all_append, ih]
      simp [isDigitCh_digitCh _ (Nat.mod_lt n (by omega))]

theorem natReprAux_val : ∀ (fuel n : Nat), n ≤ fuel →
    digitsVal (natReprAux fuel n) = n := by
  intro fuel
  induction fuel with
  | zero =>
    intro n h
    interval_cases n
    rfl
  | succ f ih =>
    intro n h
    simp only [natReprAux]
    by_cases h0 : n = 0
    · rw [if_pos h0, h0]; rfl
    · have hdiv : n / 10 ≤ f := by
        have : n / 10 < n := Nat.div_lt_self (Nat.pos_of_ne_zero h0) (by omega)
        omega
      rw [if_neg h0, digitsVal_append_single, ih (n / 10) hdiv,
        charVal_digitCh _ (Nat.mod_lt n (by omega))]
      omega

theorem natRepr_all (n : Nat) : (natRepr n).all isDigitCh = true := by
  rw [natRepr]
  by_cases h : n = 0
  · rw [if_pos h]; rfl
  · rw [if_neg h]; exact natReprAux_all (n + 1) n

theorem natRepr_ne_nil (n : Nat) : natRepr n ≠ [] := by
  rw [natRepr]
  by_cases h : n = 0
  · rw [if_pos h]; exact fun he => List.noConfusion he
  · rw [if_neg h]
    simp only [natReprAux, if_neg h]
    intro he
    exact absurd (List.append_eq_nil.mp he).2 (fun hx => List.noConfusion hx)

theorem natRepr_val (n : Nat) : digitsVal (natRepr n) = n := by
  rw [natRepr]
  by_cases h : n = 0
  · rw [if_pos h, h]
    rfl
  · rw [if_neg h]
    exact natReprAux_val (n + 1) n (by omega)

theorem takeWhile_all {α : Type} (p : α → Bool) :
    ∀ (l : List α), l.all p = true → l.takeWhile p = l := by
  intro l
  induction l with
  | nil => intro _; rfl
  | cons a t ih =>
    intro h
    rw [List.all_cons, Bool.and_eq_true] at h
    rw [List.takeWhile_cons, h.1]
    simp [ih h.2]

theorem dropWhile_all {α : Type} (p : α → Bool) :
    ∀ (l : List α), l.all p = true → l.dropWhile p = [] := by
  intro l
  induction l with
  | nil => intro _; rfl
  | cons a t ih =>
    intro h
    rw [List.all_cons, Bool.and_eq_true] at h
    rw [List.dropWhile_cons, h.1]
    simp [ih h.2]

theorem natRepr_notDot (n : Nat) :
    (natRepr n).all (fun c => !(c.toNat == 46)) = true := by
  have hd := natRepr_all n
  rw [List.all_eq_true] at hd ⊢
  intro c hc
  have := hd c hc
  rw [isDigitCh, Bool.and_eq_true, decide_eq_true_eq, decide_eq_true_eq] at this
  simp only [Bool.not_eq_eq_eq_not, Bool.not_true, beq_eq_false_iff_ne, ne_eq]
  omega

theorem natRepr_natOfDigits (n : Nat) : natOfDigits (natRepr n) = some n := by
  rw [natOfDigits]
  rw [if_neg (by simp [List.isEmpty_iff, natRepr_ne_nil n]), if_pos (natRepr_all n),
    natRepr_val]

theorem natRepr_decDigits (n : Nat) : decDigits (natRepr n) = some (n : ℚ) := by
  rw [decDigits]
  simp only [takeWhile_all _ _ (natRepr_notDot n), dropWhile_all _ _ (natRepr_notDot n),
    natRepr_natOfDigits]

theorem natRepr_head_digit (n : Nat) :
    ∃ c t, natRepr n = c :: t ∧ isDigitCh c = true := by
  cases h : natRepr n with
  | nil => exact absurd h (natRepr_ne_nil n)
  | cons c t =>
    refine ⟨c, t, rfl, ?_⟩
    have := natRepr_all n
    rw [h, List.all_cons, Bool.and_eq_true] at this
    exact this.1

theorem jsNumber_natRepr (n : Nat) : jsNumberChars (natRepr n) = some (n : ℚ) := by
  obtain ⟨c, t, hct, hd⟩ := natRepr_head_digit n
  rw [isDigitCh, Bool.and_eq_true, decide_eq_true_eq, decide_eq_true_eq] at hd
  rw [hct, jsNumberChars.eq_def]
  show (if c.toNat = 45 then Option.map Neg.neg (decDigits t) else decDigits (c :: t))
    = some (n : ℚ)
  rw [if_neg (by omega), ← hct, natRepr_decDigits]

theorem natRepr_mem_bounds (n : Nat) :
    ∀ c ∈ natRepr n, 48 ≤ c.toNat ∧ c.toNat ≤ 57 := by
  intro c hc
  have hall := natRepr_all n
  rw [List.all_eq_true] at hall
  have := hall c hc
  rw [isDigitCh, Bool.and_eq_true, decide_eq_true_eq, decide_eq_true_eq] at this
  exact this

theorem intRepr_plain (i : Int) :
    ∀ c ∈ intRepr i, 45 ≤ c.toNat ∧ c.toNat ≤ 57 := by
  intro c hc
  rw [intRepr] at hc
  by_cases h : i < 0
  · rw [if_pos h, List.mem_cons] at hc
    rcases hc with hc | hc
    · rw [hc]
      decide
    · have := natRepr_mem_bounds i.natAbs c hc
      omega
  · rw [if_neg h] at hc
    have := natRepr_mem_bounds i.natAbs c hc
    omega

theorem intRepr_ne_nil (i : Int) : intRepr i ≠ [] := by
  rw [intRepr]
  by_cases h : i < 0
  · rw [if_pos h]; exact fun he => List.noConfusion he
  · rw [if_neg h]; exact natRepr_ne_nil _

theorem digitStart_intRepr (i : Int) : digitStart (intRepr i) = true := by
  rw [intRepr]
  obtain ⟨c, t, hct, hd⟩ := natRepr_head_digit i.natAbs
  by_cases h : i < 0
  · rw [if_pos h, hct, digitStart.eq_def]
    show (isDigitCh chMinus || ((chMinus.toNat == 45) && isDigitCh c)) = true
    rw [hd]
    rfl
  · rw [if_neg h, hct, digitStart.eq_def]
    show (isDigitCh c || _) = true
    rw [hd]
    rfl

theorem jsNumber_intRepr (i : Int) : jsNumberChars (intRepr i) = some (i : ℚ) := by
  rw [intRepr]
  by_cases h : i < 0
  · rw [if_pos h, jsNumberChars.eq_def]
    show (if chMinus.toNat = 45 then Option.map Neg.neg (decDigits (natRepr i.natAbs))
        else decDigits (chMinus :: natRepr i.natAbs)) = some (i : ℚ)
    rw [if_pos (show chMinus.toNat = 45 from rfl), natRepr_decDigits]
    have habs : ((i.natAbs : ℕ) : ℚ) = -(i : ℚ) := by
      rw [Int.cast_natAbs, abs_of_nonpos (show i ≤ 0 by omega)]
      push_cast
      ring
    show some (-((i.natAbs : ℕ) : ℚ)) = some (i : ℚ)
    rw [habs]
    congr 1
    ring
  · rw [if_neg h, jsNumber_natRepr]
    have habs : ((i.natAbs : ℕ) : ℚ) = (i : ℚ) := by
      rw [Int.cast_natAbs, abs_of_nonneg (show (0 : ℤ) ≤ i by omega)]
    rw [habs]

theorem atom_intRepr (i : Int) : atomV (intRepr i) = .num (i : ℚ) := by
  rw [atomV]
  have hq : ¬((intRepr i).head?.any (fun c => c.toNat == 34) = true
      ∧ (intRepr i).getLast?.any (fun c => c.toNat == 34) = true) := by
    rintro ⟨h1, _⟩
    obtain ⟨c, t, hct⟩ := List.exists_cons_of_ne_nil (intRepr_ne_nil i)
    rw [hct] at h1
    simp only [List.head?_cons, Option.any_some, beq_iff_eq] at h1
    have := intRepr_plain i c (by rw [hct]; exact List.mem_cons_self c t)
    omega
  rw [if_neg hq, if_pos (digitStart_intRepr i), jsNumber_intRepr]

theorem plainFacts (c : Char) (h : 45 ≤ c.toNat ∧ c.toNat ≤ 57) :
    isspaceCh c = false ∧ isSepCh c = false ∧ genericCh c = true := by
  have h1 : isspaceCh c = false := by
    simp only [isspaceCh, Bool.or_eq_false_iff, beq_eq_false_iff_ne, ne_eq]
    omega
  have h2 : isSepCh c = false := by
    simp only [isSepCh, Bool.or_eq_false_iff, beq_eq_false_iff_ne, ne_eq]
    omega
  refine ⟨h1, h2, ?_⟩
  rw [genericCh, h1, h2]
  rfl

theorem tokeniseF_nil (fuel : Nat) : tokeniseF fuel [] = [] := by
  cases fuel with
  | zero => rfl
  | succ f => rfl

theorem tokenise_single (fuel : Nat) (c : Char) (t : List Char)
    (hPlain : ∀ x ∈ c :: t, 45 ≤ x.toNat ∧ x.toNat ≤ 57) :
    tokeniseF (fuel + 1) (c :: t) = [c :: t] := by
  have hall : (c :: t).all genericCh = true := by
    rw [List.all_eq_true]
    intro x hx
    exact (plainFacts x (hPlain x hx)).2.2
  have hb : 45 ≤ c.toNat ∧ c.toNat ≤ 57 :=
    hPlain c (List.mem_cons_self c t)
  have hc := plainFacts c hb
  have hdw : (c :: t).dropWhile isspaceCh = c :: t := by
    rw [List.dropWhile_cons, hc.1]
    rfl
  have h59 : ¬(c.toNat = 59 ∧ (t.head?.any fun d => d.toNat == 59) = true) := by
    rintro ⟨ha, _⟩
    omega
  have h34 : ¬(c.toNat = 34) := by omega
  simp only [tokeniseF, hdw, h59, if_false, hc.2.1, Bool.false_eq_true, h34,
    takeWhile_all _ _ hall, dropWhile_all _ _ hall, tokeniseF_nil]

theorem readFrom_single (fuel : Nat) (c : Char) (t : List Char)
    (hPlain : ∀ x ∈ c :: t, 45 ≤ x.toNat ∧ x.toNat ≤ 57) :
    readFromF (fuel + 1) [c :: t] = .ok (atomV (c :: t), []) := by
  have hb : 45 ≤ c.toNat ∧ c.toNat ≤ 57 :=
    hPlain c (List.mem_cons_self c t)
  have hne1 : ∀ (d : Char), c.toNat ≠ d.toNat → ¬(c :: t = [d]) := by
    intro d hd he
    injection he with he1 _
    rw [he1] at hd
    exact hd rfl
  have hLP : ¬(c :: t = [chLP]) := hne1 chLP (by have : chLP.toNat = 40 := rfl; omega)
  have hLB : ¬(c :: t = [chLB]) := hne1 chLB (by have : chLB.toNat = 91 := rfl; omega)
  have hLC : ¬(c :: t = [chLC]) := hne1 chLC (by have : chLC.toNat = 123 := rfl; omega)
  have hQt : ¬(c :: t = [chQuote]) := hne1 chQuote (by have : chQuote.toNat = 39 := rfl; omega)
  have hq : ((c :: t).head?.any fun x => x.toNat == 39) = false := by
    simp only [List.head?_cons, Option.any_some, beq_eq_false_iff_ne, ne_eq]
    omega
  simp only [readFromF, hLP, hLB, hLC, hQt, if_false, hq, Bool.false_eq_true]

theorem parse_single_token (cs : List Char) (hne : cs ≠ [])
    (hPlain : ∀ x ∈ cs, 45 ≤ x.toNat ∧ x.toNat ≤ 57) :
    Parse (String.mk cs) = .ok (atomV cs) := by
  obtain ⟨c, t, hct⟩ := List.exists_cons_of_ne_nil hne
  rw [Parse]
  have hlen : (String.mk cs).length = cs.length := rfl
  have hdata : (String.mk cs).data = cs := rfl
  rw [hlen, hdata, hct, tokenise_single _ _ _ (by rw [← hct]; exact hPlain)]
  have hfuel : 2 * (c :: t).length + 8 = (2 * (c :: t).length + 7) + 1 := rfl
  rw [hfuel, readFrom_single _ _ _ (by rw [← hct]; exact hPlain), ← hct]
  rfl

theorem parse_print_intCast (i : ℤ) :
    Parse (to_string (.num (i : ℚ)) false) = .ok (.num (i : ℚ)) := by
  have hts : toStr (.num (i : ℚ)) false = intRepr i := by
    simp only [toStr, numToString, Rat.den_intCast, Rat.num_intCast, if_true]
  have hs : to_string (.num (i : ℚ)) false = String.mk (intRepr i) := by
    rw [to_string, hts]
  rw [hs, parse_single_token _ (intRepr_ne_nil i) (intRepr_plain i), atom_intRepr]

theorem natReprAux_length : ∀ (fuel n k : Nat), n < 10 ^ k →
    (natReprAux fuel n).length ≤ k := by
  intro fuel
  induction fuel with
  | zero =>
    intro n k _
    simp only [natReprAux, List.length_nil]
    exact Nat.zero_le k
  | succ f ih =>
    intro n k h
    simp only [natReprAux]
    by_cases h0 : n = 0
    · rw [if_pos h0, List.length_nil]
      exact Nat.zero_le k
    · rw [if_neg h0]
      cases k with
      | zero =>
        rw [pow_zero] at h
        exact absurd (by omega : n = 0) h0
      | succ kk =>
        have hdiv : n / 10 < 10 ^ kk := by
          rw [pow_succ] at h
          exact (Nat.div_lt_iff_lt_mul (by omega)).mpr h
        have hih := ih (n / 10) kk hdiv
        rw [List.length_append, List.length_singleton]
        omega

theorem natRepr_length_le (n k : Nat) (h0 : n ≠ 0) (h : n < 10 ^ k) :
    (natRepr n).length ≤ k := by
  rw [natRepr, if_neg h0]
  exact natReprAux_length (n + 1) n k h

theorem digitsVal_cons_zero (cs : List Char) :
    digitsVal (digitCh 0 :: cs) = digitsVal cs := rfl

theorem digitsVal_replicate_append (j : Nat) (cs : List Char) :
    digitsVal (List.replicate j (digitCh 0) ++ cs) = digitsVal cs := by
  induction j with
  | zero => rfl
  | succ jj ih =>
    rw [List.replicate_succ, List.cons_append, digitsVal_cons_zero, ih]

theorem replicate_zero_digits (j : Nat) :
    (List.replicate j (digitCh 0)).all isDigitCh = true := by
  rw [List.all_eq_true]
  intro c hc
  rw [List.eq_of_mem_replicate hc]
  exact isDigitCh_digitCh 0 (by omega)

theorem padZeros_all (k : Nat) (cs : List Char) (h : cs.all isDigitCh = true) :
    (padZeros k cs).all isDigitCh = true := by
  rw [padZeros, List.all_append, replicate_zero_digits, h]
  rfl

theorem padZeros_length (k : Nat) (cs : List Char) (h : cs.length ≤ k) :
    (padZeros k cs).length = k := by
  rw [padZeros, List.length_append, List.length_replicate]
  omega

theorem padZeros_val (k : Nat) (cs : List Char) :
    digitsVal (padZeros k cs) = digitsVal cs :=
  digitsVal_replicate_append (k - cs.length) cs

theorem takeWhile_append_stop {p : Char → Bool} :
    ∀ (A : List Char) (c : Char) (B : List Char),
      A.all p = true → p c = false → (A ++ c :: B).takeWhile p = A := by
  intro A
  induction A with
  | nil =>
    intro c B _ hc
    simp [List.takeWhile_cons, hc]
  | cons a t ih =>
    intro c B hA hc
    rw [List.all_cons, Bool.and_eq_true] at hA
    simp [List.takeWhile_cons, hA.1, ih c B hA.2 hc]

theorem dropWhile_append_stop {p : Char → Bool} :
    ∀ (A : List Char) (c : Char) (B : List Char),
      A.all p = true → p c = false → (A ++ c :: B).dropWhile p = c :: B := by
  intro A
  induction A with
  | nil =>
    intro c B _ hc
    simp [List.dropWhile_cons, hc]
  | cons a t ih =>
    intro c B hA hc
    rw [List.all_cons, Bool.and_eq_true] at hA
    simp [List.dropWhile_cons, hA.1, ih c B hA.2 hc]

theorem decDigits_decimal (a b k : Nat) (hb : (natRepr b).length ≤ k) :
    decDigits (natRepr a ++ chDot :: padZeros k (natRepr b))
      = some ((a : ℚ) + (b : ℚ) / (10 : ℚ) ^ k) := by
  have hstop : (fun c => !(c.toNat == 46)) chDot = false := rfl
  rw [decDigits]
  simp only [takeWhile_append_stop _ _ _ (natRepr_notDot a) hstop,
    dropWhile_append_stop _ _ _ (natRepr_notDot a) hstop, natRepr_natOfDigits]
  show (if (padZeros k (natRepr b)).all isDigitCh = true then
      some ((a : ℚ) + (digitsVal (padZeros k (natRepr b)) : ℚ)
        / ((10 : ℚ) ^ (padZeros k (natRepr b)).length))
    else none) = some ((a : ℚ) + (b : ℚ) / (10 : ℚ) ^ k)
  rw [if_pos (padZeros_all _ _ (natRepr_all b)), padZeros_val, natRepr_val,
    padZeros_length _ _ hb]

theorem atomV_num (c : Char) (t : List Char) (q : ℚ) (h34 : c.toNat ≠ 34)
    (hds : digitStart (c :: t) = true) (hjs : jsNumberChars (c :: t) = some q) :
    atomV (c :: t) = .num q := by
  have hq : ¬((c :: t).head?.any (fun x => x.toNat == 34) = true
      ∧ (c :: t).getLast?.any (fun x => x.toNat == 34) = true) := by
    rintro ⟨h1, _⟩
    simp only [List.head?_cons, Option.any_some, beq_iff_eq] at h1
    exact h34 h1
  rw [atomV, if_neg hq, if_pos hds, hjs]

theorem atom_decimal (a b k : Nat) (hb : (natRepr b).length ≤ k) :
    atomV (natRepr a ++ chDot :: padZeros k (natRepr b))
      = .num ((a : ℚ) + (b : ℚ) / (10 : ℚ) ^ k) := by
  obtain ⟨c, t, hct, hdc⟩ := natRepr_head_digit a
  have hdB : 48 ≤ c.toNat ∧ c.toNat ≤ 57 := by
    have h2 := hdc
    rw [isDigitCh, Bool.and_eq_true, decide_eq_true_eq, decide_eq_true_eq] at h2
    exact h2
  rw [hct, List.cons_append]
  refine atomV_num c (t ++ chDot :: padZeros k (natRepr b)) _ (by omega) ?_ ?_
  · rw [digitStart.eq_def]
    show (isDigitCh c || _) = true
    rw [hdc]
    rfl
  · rw [jsNumberChars.eq_def]
    show (if c.toNat = 45
        then Option.map Neg.neg (decDigits (t ++ chDot :: padZeros k (natRepr b)))
        else decDigits (c :: (t ++ chDot :: padZeros k (natRepr b))))
      = some ((a : ℚ) + (b : ℚ) / (10 : ℚ) ^ k)
    rw [if_neg (by omega), ← List.cons_append, ← hct, decDigits_decimal a b k hb]

theorem decVal_eq (nn d m k : Nat) (hd : 0 < d) (hm : 10 ^ k = d * m) :
    ((nn / d : ℕ) : ℚ) + ((nn % d * m : ℕ) : ℚ) / (10 : ℚ) ^ k
      = (nn : ℚ) / (d : ℚ) := by
  have hm0 : 0 < m := by
    by_contra h0
    have h1 : m = 0 := by omega
    rw [h1, Nat.mul_zero] at hm
    have h2 : 0 < 10 ^ k := pow_pos (by omega) k
    omega
  have hdQ : (d : ℚ) ≠ 0 := Nat.cast_ne_zero.mpr (by omega)
  have hmQ : (m : ℚ) ≠ 0 := Nat.cast_ne_zero.mpr (by omega)
  have h10 : (10 : ℚ) ^ k = (d : ℚ) * (m : ℚ) := by
    have h3 : ((10 ^ k : ℕ) : ℚ) = ((d * m : ℕ) : ℚ) := by rw [hm]
    push_cast at h3
    exact h3
  have hdm : (d : ℚ) * ((nn / d : ℕ) : ℚ) + ((nn % d : ℕ) : ℚ) = (nn : ℚ) := by
    have h4 : ((d * (nn / d) + nn % d : ℕ) : ℚ) = ((nn : ℕ) : ℚ) := by
      rw [Nat.div_add_mod]
    push_cast at h4
    exact h4
  have hred : ((nn % d : ℕ) : ℚ) * (m : ℚ) / ((d : ℚ) * (m : ℚ))
      = ((nn % d : ℕ) : ℚ) / (d : ℚ) := by
    rw [mul_div_mul_right _ _ hmQ]
  rw [h10, Nat.cast_mul, hred, ← hdm, add_div, mul_div_cancel_left₀ _ hdQ]

theorem atom_numToString_dec (q : ℚ) (k0 : Nat) (hden : ¬q.den = 1)
    (hfind : findPow10 q.den = some k0) (hk0dvd : 10 ^ k0 % q.den = 0) :
    atomV (numToString q) = .num q := by
  have hdpos : 0 < q.den := q.den_pos
  obtain ⟨m, hm⟩ : q.den ∣ 10 ^ k0 := Nat.dvd_of_mod_eq_zero hk0dvd
  have hm0 : 0 < m := by
    by_contra h0
    have h1 : m = 0 := by omega
    rw [h1, Nat.mul_zero] at hm
    have h2 : 0 < 10 ^ k0 := pow_pos (by omega) k0
    omega
  have hfr0 : q.num.natAbs % q.den ≠ 0 := by
    intro h0
    have hdvd : q.den ∣ q.num.natAbs := Nat.dvd_of_mod_eq_zero h0
    have hg : q.den ∣ Nat.gcd q.num.natAbs q.den := Nat.dvd_gcd hdvd dvd_rfl
    have hcop : Nat.gcd q.num.natAbs q.den = 1 := q.reduced
    rw [hcop] at hg
    have := Nat.le_of_dvd (by omega) hg
    omega
  have hfd_eq : q.num.natAbs % q.den * 10 ^ k0 / q.den = q.num.natAbs % q.den * m := by
    rw [hm, show q.num.natAbs % q.den * (q.den * m)
        = q.den * (q.num.natAbs % q.den * m) by ring,
      Nat.mul_div_cancel_left _ hdpos]
  have hfd_ne : q.num.natAbs % q.den * m ≠ 0 := Nat.mul_ne_zero hfr0 (by omega)
  have hfd_lt : q.num.natAbs % q.den * m < 10 ^ k0 := by
    rw [hm]
    exact (Nat.mul_lt_mul_right hm0).mpr (Nat.mod_lt _ hdpos)
  have hlen : (natRepr (q.num.natAbs % q.den * 10 ^ k0 / q.den)).length ≤ k0 := by
    rw [hfd_eq]
    exact natRepr_length_le _ _ hfd_ne hfd_lt
  have hval : ((q.num.natAbs / q.den : ℕ) : ℚ)
      + ((q.num.natAbs % q.den * 10 ^ k0 / q.den : ℕ) : ℚ) / (10 : ℚ) ^ k0
      = ((q.num.natAbs : ℕ) : ℚ) / ((q.den : ℕ) : ℚ) := by
    rw [hfd_eq]
    exact decVal_eq q.num.natAbs q.den m k0 hdpos hm
  have hnum : numToString q
      = (if q.num < 0 then [chMinus] else []) ++ natRepr (q.num.natAbs / q.den)
        ++ chDot :: padZeros k0 (natRepr (q.num.natAbs % q.den * 10 ^ k0 / q.den)) := by
    rw [numToString, if_neg hden, hfind]
  rw [hnum]
  by_cases hsig : q.num < 0
  · rw [if_pos hsig]
    have hform : ([chMinus] ++ natRepr (q.num.natAbs / q.den))
          ++ chDot :: padZeros k0 (natRepr (q.num.natAbs % q.den * 10 ^ k0 / q.den))
        = chMinus :: (natRepr (q.num.natAbs / q.den)
          ++ chDot :: padZeros k0 (natRepr (q.num.natAbs % q.den * 10 ^ k0 / q.den))) := by
      rw [List.singleton_append, List.cons_append]
    rw [hform]
    refine atomV_num chMinus (natRepr (q.num.natAbs / q.den)
      ++ chDot :: padZeros k0 (natRepr (q.num.natAbs % q.den * 10 ^ k0 / q.den)))
      q (by decide) ?_ ?_
    · obtain ⟨c, t, hct, hdc⟩ := natRepr_head_digit (q.num.natAbs / q.den)
      rw [hct, List.cons_append, digitStart.eq_def]
      show (isDigitCh chMinus || ((chMinus.toNat == 45) && isDigitCh c)) = true
      rw [hdc]
      rfl
    · rw [jsNumberChars.eq_def]
      show (if chMinus.toNat = 45
          then Option.map Neg.neg (decDigits (natRepr (q.num.natAbs / q.den)
            ++ chDot :: padZeros k0 (natRepr (q.num.natAbs % q.den * 10 ^ k0 / q.den))))
          else decDigits (chMinus :: (natRepr (q.num.natAbs / q.den)
            ++ chDot :: padZeros k0 (natRepr (q.num.natAbs % q.den * 10 ^ k0 / q.den)))))
        = some q
      rw [if_pos (show chMinus.toNat = 45 from rfl), decDigits_decimal _ _ _ hlen]
      show some (-(((q.num.natAbs / q.den : ℕ) : ℚ)
          + ((q.num.natAbs % q.den * 10 ^ k0 / q.den : ℕ) : ℚ) / (10 : ℚ) ^ k0)) = some q
      rw [hval]
      congr 1
      have habs : ((q.num.natAbs : ℕ) : ℚ) = -((q.num : ℤ) : ℚ) := by
        rw [Int.cast_natAbs, abs_of_nonpos (show q.num ≤ 0 by omega)]
        push_cast
        ring
      rw [habs, neg_div, neg_neg, Rat.num_div_den]
  · rw [if_neg hsig, List.nil_append, atom_decimal _ _ _ hlen]
    congr 1
    rw [hval]
    have habs : ((q.num.natAbs : ℕ) : ℚ) = ((q.num : ℤ) : ℚ) := by
      rw [Int.cast_natAbs, abs_of_nonneg (show (0 : ℤ) ≤ q.num by omega)]
    rw [habs, Rat.num_div_den]

theorem numToString_plain (q : ℚ) :
    ∀ c ∈ numToString q, 45 ≤ c.toNat ∧ c.toNat ≤ 57 := by
  by_cases hden : q.den = 1
  · intro c hc
    rw [numToString, if_pos hden] at hc
    exact intRepr_plain _ c hc
  · cases hfind : findPow10 q.den with
    | some k =>
      have hns : numToString q
          = (if q.num < 0 then [chMinus] else []) ++ natRepr (q.num.natAbs / q.den)
            ++ chDot :: padZeros k (natRepr (q.num.natAbs % q.den * 10 ^ k / q.den)) := by
        rw [numToString, if_neg hden, hfind]
      intro c hc
      rw [hns] at hc
      rcases List.mem_append.mp hc with h1 | h2
      · rcases List.mem_append.mp h1 with h1a | h1b
        · by_cases hsig : q.num < 0
          · rw [if_pos hsig, List.mem_singleton] at h1a
            rw [h1a]
            decide
          · rw [if_neg hsig] at h1a
            exact absurd h1a (List.not_mem_nil c)
        · have := natRepr_mem_bounds _ c h1b
          omega
      · rw [List.mem_cons] at h2
        rcases h2 with h5 | h6
        · rw [h5]
          decide
        · rw [padZeros] at h6
          rcases List.mem_append.mp h6 with h7 | h8
          · rw [List.eq_of_mem_replicate h7]
            decide
          · have := natRepr_mem_bounds _ c h8
            omega
    | none =>
      have hns : numToString q = intRepr q.num ++ Char.ofNat 47 :: natRepr q.den := by
        rw [numToString, if_neg hden, hfind]
      intro c hc
      rw [hns] at hc
      rcases List.mem_append.mp hc with h1 | h2
      · exact intRepr_plain _ c h1
      · rw [List.mem_cons] at h2
        rcases h2 with h3 | h4
        · rw [h3]
          decide
        · have := natRepr_mem_bounds _ c h4
          omega

theorem numToString_ne_nil (q : ℚ) : numToString q ≠ [] := by
  by_cases hden : q.den = 1
  · rw [numToString, if_pos hden]
    exact intRepr_ne_nil _
  · cases hfind : findPow10 q.den with
    | some k =>
      rw [numToString, if_neg hden, hfind]
      intro he
      have h2 := (List.append_eq_nil.mp he).2
      exact List.noConfusion h2
    | none =>
      rw [numToString, if_neg hden, hfind]
      intro he
      have h2 := (List.append_eq_nil.mp he).2
      exact List.noConfusion h2

/-- C8, amended: the `parse`/`to_string` round-trip holds for every number
atom the reader can produce — the reader only yields numbers with a finite
decimal expansion, i.e. whose reduced denominator divides some power
`10 ^ k` (an exponent `k ≤ den` always suffices, since a reduced
denominator `2^a * 5^b` admits `k = max a b` and `a < 2^a ≤ den`), and
every such value prints as that exact expansion and re-parses to the same
number.  The round-trip still fails for lists (which gain a `list` head),
symbols (which re-parse as quote forms) and strings (printed without
quotes); see the counterexample. -/
theorem C8_amended (q : ℚ) (k : Nat) (h1 : 0 < k) (h2 : k ≤ q.den)
    (h3 : 10 ^ k % q.den = 0) :
    Parse (to_string (.num q) false) = .ok (.num q) := by
  by_cases hden : q.den = 1
  · have hq : ((q.num : ℤ) : ℚ) = q := by
      conv_rhs => rw [← Rat.num_div_den q]
      rw [hden]
      norm_num
    rw [← hq]
    exact parse_print_intCast q.num
  · have hsome : (findPow10 q.den).isSome = true := by
      rw [findPow10, List.find?_isSome]
      exact ⟨k, by rw [List.mem_range]; omega, by simp only [decide_eq_true_eq]; exact ⟨h1, h3⟩⟩
    obtain ⟨k0, hk0⟩ := Option.isSome_iff_exists.mp hsome
    have hk0f := hk0
    rw [findPow10] at hk0f
    have hp := List.find?_some hk0f
    rw [decide_eq_true_eq] at hp
    have hatom := atom_numToString_dec q k0 hden hk0 hp.2
    have hts : to_string (.num q) false = String.mk (numToString q) := by
      rw [to_string]
      rw [show toStr (.num q) false = numToString q from by simp only [toStr]]
    rw [hts, parse_single_token _ (numToString_ne_nil q) (numToString_plain q), hatom]

/-- Evaluation of `C8_amended` at the concrete non-integral value 1/2:
`to_string` prints `0.5` and `parse` reads it back. -/
theorem C8_amended_w :
    Parse (to_string (.num ⟨1, 2, by decide, by decide⟩) false)
      = .ok (.num ⟨1, 2, by decide, by decide⟩) :=
  C8_amended ⟨1, 2, by decide, by decide⟩ 1 (by decide) (by decide) (by decide)
